import Mathlib

/-!
Verification development for the bibtexcleaner repository (src/cleaner.py).

The Python code is shallowly embedded: dict-valued BibTeX records become
association lists from field names to values, stateful per-record cleaning
becomes explicit record passing, and every fallible Python operation
(KeyError, IndexError, the CleanerException raised for an unknown entry
type, exceptions raised by the external name splitter) is returned as an
`Except PyErr` value.  External collaborators (`unicodedata.name`,
`bibtexparser.customization.splitname`, the `bibtex_schema.required`
table) are modelled explicitly; each model's doc comment states its
fidelity domain.
-/

set_option autoImplicit false

/-- A Python value stored in a BibTeX record: the parser customizations leave
every field a string except `author`, which `split_author` turns into a list
of strings. -/
inductive Val where
  | s (str : String)
  | l (strs : List String)
deriving DecidableEq

/-- A BibTeX record, i.e. a Python dict from field names to values, embedded
as an association list in insertion order.  Well-formed dicts have pairwise
distinct keys; lookups read the first matching pair, as a dict would. -/
abbrev Record := List (String × Val)

/-- Dict lookup `r[k]` returning `none` where Python raises `KeyError`. -/
def recGet (r : Record) (k : String) : Option Val :=
  match r with
  | [] => none
  | (k', v) :: rest => if k' = k then some v else recGet rest k

/-- Dict assignment `r[k] = v`: replaces the value in place if the key is
present (as a Python dict does), otherwise appends the new pair. -/
def recSet (r : Record) (k : String) (v : Val) : Record :=
  match r with
  | [] => [(k, v)]
  | (k', v') :: rest => if k' = k then (k, v) :: rest else (k', v') :: recSet rest k v

/-- Python truthiness of a field value: the empty string and the empty list
are falsy. -/
def valTruthy (v : Val) : Bool :=
  match v with
  | Val.s str => !str.isEmpty
  | Val.l strs => !strs.isEmpty

/-- Errors a cleaning run can raise.  `unknownEntryType` is the
`CleanerException` of cleaner.py; the others are the builtin Python
exceptions the code can hit (`KeyError`, `IndexError`, `TypeError`, and the
`InvalidName`/`KeyError` failures arising inside `_make_id` from the
external name splitter). -/
inductive PyErr where
  | unknownEntryType (t : String)
  | keyError (k : String)
  | indexError
  | typeError
  | invalidName
deriving DecidableEq

instance exceptDecEq (ε α : Type) [DecidableEq ε] [DecidableEq α] : DecidableEq (Except ε α) :=
  fun x y =>
    match x, y with
    | Except.ok a, Except.ok b =>
      if h : a = b then isTrue (by rw [h]) else isFalse (by intro hh; injection hh; contradiction)
    | Except.error a, Except.error b =>
      if h : a = b then isTrue (by rw [h]) else isFalse (by intro hh; injection hh; contradiction)
    | Except.ok _, Except.error _ => isFalse (fun hh => Except.noConfusion hh)
    | Except.error _, Except.ok _ => isFalse (fun hh => Except.noConfusion hh)

/-- Model of the external collaborator `unicodedata.name` (Python stdlib),
restricted to the character ranges this development exercises: printable
ASCII, Hiragana, Katakana and the CJK Unified Ideographs block.  The
classifier only tests whether the returned name contains one of the
substrings "CJK UNIFIED", "HIRAGANA", "KATAKANA", so names are abbreviated
to their block indication, which no printable-ASCII name contains.
Characters outside these ranges (in particular control characters, which
really are nameless and make `unicodedata.name` raise `ValueError`) are
mapped to `none`. -/
def uname (c : Char) : Option String :=
  if 0x20 ≤ c.toNat ∧ c.toNat ≤ 0x7E then some "BASIC LATIN"
  else if 0x3041 ≤ c.toNat ∧ c.toNat ≤ 0x3096 then some "HIRAGANA LETTER"
  else if 0x30A1 ≤ c.toNat ∧ c.toNat ≤ 0x30FA then some "KATAKANA LETTER"
  else if 0x4E00 ≤ c.toNat ∧ c.toNat ≤ 0x9FFF then some "CJK UNIFIED IDEOGRAPH"
  else none

/-- Python's substring containment `pat in s`, on character lists. -/
def listInfix (pat : List Char) (l : List Char) : Bool :=
  match l with
  | [] => pat.isEmpty
  | _ :: rest => pat.isPrefixOf l || listInfix pat rest

/-- The substring test of `_is_japanese` (cleaner.py line 103):
`"CJK UNIFIED" in name or "HIRAGANA" in name or "KATAKANA" in name`. -/
def hasJName (name : String) : Bool :=
  listInfix "CJK UNIFIED".data name.data
  || listInfix "HIRAGANA".data name.data
  || listInfix "KATAKANA".data name.data

/-- Character loop of `_is_japanese` (cleaner.py lines 97-105): left to
right, an unresolvable Unicode name makes the whole call return `False`
(the `except ValueError: return False` branch), a matching name returns
`True`, otherwise the scan continues. -/
def isJapaneseAux (cs : List Char) : Bool :=
  match cs with
  | [] => false
  | c :: rest =>
    match uname c with
    | none => false
    | some n => if hasJName n then true else isJapaneseAux rest

/-- `_is_japanese` (cleaner.py lines 88-105). -/
def _is_japanese (string : String) : Bool :=
  isJapaneseAux string.data

/-- Modelled from the spec: the classifier as claim C4 words it — true iff
SOME character's resolvable Unicode name indicates a CJK/Hiragana/Katakana
block, every unresolvable character being treated as an individual
non-matching character.  Used only to compare against `_is_japanese`. -/
def isCjkClaim (string : String) : Bool :=
  string.data.any (fun c =>
    match uname c with
    | some n => hasJName n
    | none => false)

/-- Characters Python's `str.strip()` removes (ASCII whitespace, the C1
separators, NBSP, and the Unicode space separators). -/
def pyIsSpace (c : Char) : Bool :=
  c = ' ' || c = '\t' || c = '\n' || c = '\r'
  || c.toNat = 0x0B || c.toNat = 0x0C
  || (0x1C ≤ c.toNat && c.toNat ≤ 0x1F) || c.toNat = 0x85 || c.toNat = 0xA0
  || c.toNat = 0x1680 || (0x2000 ≤ c.toNat && c.toNat ≤ 0x200A)
  || c.toNat = 0x2028 || c.toNat = 0x2029 || c.toNat = 0x202F
  || c.toNat = 0x205F || c.toNat = 0x3000

/-- Python `str.strip()`. -/
def pyStrip (s : String) : String :=
  String.mk (((s.data.dropWhile pyIsSpace).reverse.dropWhile pyIsSpace).reverse)

/-- `"," in fullname` (cleaner.py line 195). -/
def hasComma (s : String) : Bool :=
  s.data.any (fun c => c = ',')

/-- Left half of `fullname.split(",", 1)`: the characters before the first
comma. -/
def beforeComma (s : String) : String :=
  String.mk (s.data.takeWhile (fun c => c ≠ ','))

/-- Right half of `fullname.split(",", 1)`: everything after the first
comma. -/
def afterComma (s : String) : String :=
  String.mk ((s.data.dropWhile (fun c => c ≠ ',')).drop 1)

/-- Per-name body of the loop in `_treat_japanese_author` (cleaner.py lines
194-206): a name classified Japanese that contains a comma is split at the
first comma into `last` (before) and `first` (after), both stripped, and
reassembled as `"first last"` when `reverse_author` is true and
`"last first"` when it is false; every other name passes through. -/
def treatName (reverse_author : Bool) (fullname : String) : String :=
  if _is_japanese fullname && hasComma fullname then
    let first := pyStrip (afterComma fullname)
    let last := pyStrip (beforeComma fullname)
    if reverse_author then first ++ " " ++ last else last ++ " " ++ first
  else fullname

/-- `_treat_japanese_author` (cleaner.py lines 191-208).  When the author
value is (unusually) still a raw string, Python's `for fullname in ...`
iterates its characters as one-character strings, and the field becomes a
list either way. -/
def _treat_japanese_author (entry : Record) (reverse_author : Bool) : Record :=
  match recGet entry "author" with
  | none => entry
  | some (Val.l names) =>
      recSet entry "author" (Val.l (names.map (treatName reverse_author)))
  | some (Val.s raw) =>
      recSet entry "author" (Val.l (raw.data.map (fun c => treatName reverse_author (String.mk [c]))))

/-- `check_parentheses_matching` stack loop (cleaner.py lines 159-174): push
on an opening character, pop on a closing one (`False` on popping empty),
succeed iff the stack ends empty. -/
def cpmGo (opening closing : List Char) (stack : List Char) (cs : List Char) : Bool :=
  match cs with
  | [] => stack.isEmpty
  | c :: rest =>
    if c ∈ opening then cpmGo opening closing (c :: stack) rest
    else if c ∈ closing then
      match stack with
      | [] => false
      | _ :: st => cpmGo opening closing st rest
    else cpmGo opening closing stack rest

/-- `check_parentheses_matching` (cleaner.py lines 146-174). -/
def check_parentheses_matching (string opening closing : String) : Bool :=
  cpmGo opening.data closing.data [] string.data

/-- Title-level body of `_wrap_title` (cleaner.py lines 178-187): `none`
models the `IndexError` that `title[0]` raises on an empty title; an
already-protected title (leading `\x7b`, trailing `\x7d`, balanced interior)
is returned unchanged, any other title is wrapped in one delimiter pair. -/
def wrapTitleStr (title : String) : Option String :=
  match title.data with
  | [] => none
  | c :: rest =>
    if c = '\x7b' ∧ rest.getLastD c = '\x7d'
        ∧ check_parentheses_matching (String.mk rest.dropLast) "\x7b" "\x7d" = true
    then some title
    else some ("\x7b" ++ title ++ "\x7d")

/-- `_wrap_title` (cleaner.py lines 177-188), on records.  In the
already-protected branch the source returns the entry unchanged; rewriting
the equal title value through `recSet` yields the identical record.  The
model is restricted to string-valued titles (which is what the parser
collaborator supplies); a list-valued title is mapped to an error. -/
def _wrap_title (entry : Record) : Except PyErr Record :=
  match recGet entry "title" with
  | none => Except.ok entry
  | some (Val.l _) => Except.error PyErr.typeError
  | some (Val.s title) =>
    match wrapTitleStr title with
    | none => Except.error PyErr.indexError
    | some title2 => Except.ok (recSet entry "title" (Val.s title2))

/-- Splits a character list at every comma (Python `name.split(",")`):
always returns one more section than there are commas. -/
def splitCommas (cs : List Char) : List (List Char) :=
  match cs with
  | [] => [[]]
  | c :: rest =>
    if c = ',' then [] :: splitCommas rest
    else
      match splitCommas rest with
      | [] => [[c]]
      | sec :: secs => (c :: sec) :: secs

/-- Result of the external collaborator
`bibtexparser.customization.splitname`: the four name-part word lists. -/
structure NameParts where
  first : List String
  von : List String
  last : List String
  jr : List String
deriving DecidableEq

/-- The word separators of `splitname` (its `whitespace` set: space, tilde,
CR, LF, TAB). -/
def nameWhitespace : List Char := [' ', '~', '\r', '\n', '\t']

/-- Word-accumulating loop of `splitname`'s tokenizer: `cur` holds the
(reversed) characters of the word being built; a separator flushes it,
empty words are dropped. -/
def sectionWordsGo (cur : List Char) (cs : List Char) : List String :=
  match cs with
  | [] => if cur.isEmpty then [] else [String.mk cur.reverse]
  | c :: rest =>
    if c ∈ nameWhitespace then
      if cur.isEmpty then sectionWordsGo [] rest
      else String.mk cur.reverse :: sectionWordsGo [] rest
    else sectionWordsGo (c :: cur) rest

/-- Splits a comma-free section of a name into its words, dropping empty
words produced by repeated separators. -/
def sectionWords (cs : List Char) : List String :=
  sectionWordsGo [] cs

/-- Python `char.isalpha()` restricted to the character ranges this
development exercises: ASCII letters plus the kana and CJK Unified
Ideograph ranges (all alphabetic in Python, and caseless, hence classified
lowercase by `splitname`). -/
def pyIsAlpha (c : Char) : Bool :=
  c.isAlpha
  || (0x3041 ≤ c.toNat && c.toNat ≤ 0x3096)
  || (0x30A1 ≤ c.toNat && c.toNat ≤ 0x30FA)
  || (0x4E00 ≤ c.toNat && c.toNat ≤ 0x9FFF)

/-- `splitname`'s case of a word: `1` if its first alphabetic character is
uppercase, `0` if lowercase (or caseless), `-1` if the word has no
alphabetic character. -/
def wordCase (w : String) : Int :=
  match w.data.find? pyIsAlpha with
  | some c => if c.isUpper then 1 else 0
  | none => -1

/-- Form `"First von Last"` of `splitname` (single comma-free section). -/
def splitForm1 (p0 : List String) : NameParts :=
  match p0 with
  | [w] => ⟨[], [], [w], []⟩
  | [w1, w2] => ⟨[w1], [], [w2], []⟩
  | _ =>
    let cs := p0.map wordCase
    let n := p0.length
    match cs.findIdx? (fun x => x == 0) with
    | none => ⟨p0.dropLast, [], p0.drop (n - 1), []⟩
    | some i =>
      let jrev := (cs.reverse.findIdx? (fun x => x == 0)).getD 0
      let j := n - 1 - jrev
      let j2 := if j = n - 1 then n - 2 else j
      ⟨p0.take i, (p0.take (j2 + 1)).drop i, p0.drop (j2 + 1), []⟩

/-- Forms `"von Last, First"` and `"von Last, Jr, First"` of `splitname`.
`firstSec` (the section after the final comma) is non-empty at every call
site. -/
def splitForm2 (sec0 jrSec firstSec : List String) : NameParts :=
  if sec0.isEmpty then
    ⟨firstSec.dropLast, [], [firstSec.getLastD ""], jrSec⟩
  else
    let lcs := sec0.map wordCase
    match lcs.reverse.findIdx? (fun x => x == 0) with
    | none => ⟨firstSec, [], sec0, jrSec⟩
    | some jrev =>
      let n := sec0.length
      let split := n - jrev
      let split2 := if split = n then 0 else split
      ⟨firstSec, sec0.take split2, sec0.drop split2, jrSec⟩

/-- Model of the external collaborator
`bibtexparser.customization.splitname` (strict mode, as `_make_id` calls
it), for names free of braces and backslash escapes — the Python function
additionally tracks brace depth and control sequences; a name containing a
brace or backslash is outside this model's fidelity domain and is mapped to
`none`.  `none` covers every outcome that raises inside `_make_id`: the
strict-mode `InvalidName` errors (more than two commas, trailing comma) and
the bare `{}` returned for whitespace-only input, whose missing `"first"`
key raises `KeyError` in `_make_id`. -/
def splitname (name : String) : Option NameParts :=
  if name.data.any (fun c => c = '\x7b' || c = '\x7d' || c = '\\') then none
  else
    let raw := splitCommas name.data
    if 4 ≤ raw.length then none
    else
      let secs := raw.map sectionWords
      if (secs.getLastD []).isEmpty then none
      else
        match secs with
        | [p0] => some (splitForm1 p0)
        | [sec0, firstSec] => some (splitForm2 sec0 [] firstSec)
        | [sec0, jrSec, firstSec] => some (splitForm2 sec0 jrSec firstSec)
        | _ => none

/-- `return entry["ID"]` (cleaner.py lines 119 and 126): the early returns
of `_make_id` hand back whatever value the `ID` key holds, raising
`KeyError` when it is absent. -/
def idValOf (entry : Record) : Except PyErr Val :=
  match recGet entry "ID" with
  | some v => Except.ok v
  | none => Except.error (PyErr.keyError "ID")

/-- `entry["author"][0]` (cleaner.py line 121): first element of a list, or
the first character (as a one-character string) when the value is still a
raw string. -/
def firstElem (v : Val) : Option String :=
  match v with
  | Val.l (x :: _) => some x
  | Val.l [] => none
  | Val.s str =>
    match str.data with
    | [] => none
    | c :: _ => some (String.mk [c])

/-- The character strip of `_make_id` (cleaner.py line 142):
`.replace(" ", "").replace(".", "").replace("\x7b", "").replace("\x7d", "")`. -/
def stripIdChars (s : String) : String :=
  String.mk (s.data.filter (fun c => c ≠ ' ' && c ≠ '.' && c ≠ '\x7b' && c ≠ '\x7d'))

/-- `_make_id` (cleaner.py lines 108-143).  Returns the existing `ID` value
when author or year is absent or the author value is falsy; otherwise
splits the first author via the external `splitname` and picks a name
part: the non-empty side if only one of first/last is present, the `first`
part for a Japanese-classified author (already swapped to family-first
order by normalization), the `last` part otherwise; strips spaces, periods
and braces; and concatenates the year. -/
def _make_id (entry : Record) : Except PyErr Val :=
  match recGet entry "author", recGet entry "year" with
  | none, _ => idValOf entry
  | some _, none => idValOf entry
  | some av, some yv =>
    if valTruthy av = false then idValOf entry
    else
      match firstElem av with
      | none => Except.error PyErr.indexError
      | some first_author =>
        match splitname first_author with
        | none => Except.error PyErr.invalidName
        | some parts =>
          if parts.first = [] ∧ parts.last = [] then idValOf entry
          else
            let name :=
              if parts.first = [] ∨ parts.last = [] then
                (if parts.last ≠ [] then String.join parts.last else String.join parts.first)
              else if _is_japanese first_author then String.join parts.first
              else String.join parts.last
            match yv with
            | Val.s y => Except.ok (Val.s (stripIdChars name ++ y))
            | Val.l _ => Except.error PyErr.typeError

/-- Modelled from the spec: the key generator as claim C6 words it — the
first author's family name is extracted by always preferring the structured
last-name component, falling back to the first whitespace token when the
name cannot be decomposed, and to whichever of first/last is non-empty when
only one side is present.  Used only to compare against `_make_id`. -/
def make_id_spec (entry : Record) : Except PyErr Val :=
  match recGet entry "author", recGet entry "year" with
  | none, _ => idValOf entry
  | some _, none => idValOf entry
  | some av, some yv =>
    if valTruthy av = false then idValOf entry
    else
      match firstElem av with
      | none => Except.error PyErr.indexError
      | some first_author =>
        match splitname first_author with
        | none => Except.error PyErr.invalidName
        | some parts =>
          let name :=
            if parts.first = [] ∧ parts.last = [] then
              String.mk ((sectionWords first_author.data).headD "").data
            else if parts.first = [] then String.join parts.last
            else if parts.last = [] then String.join parts.first
            else String.join parts.last
          match yv with
          | Val.s y => Except.ok (Val.s (stripIdChars name ++ y))
          | Val.l _ => Except.error PyErr.typeError

/-- The cleaner configuration: the four boolean flags the web form passes
as the `option` dict (endpoint.py `Setting.items`).  They correspond to the
spec names `preserveTitleCase`, `regenerateKey`, `normalizeJapaneseAuthors`
and `reverseJapaneseAuthorOrder`. -/
structure Options where
  savetitlecase : Bool
  replaceid : Bool
  jauthor : Bool
  revjauthor : Bool
deriving DecidableEq

/-- `" and ".join(e["author"])` (cleaner.py line 238): joins a list of
names; joining a raw string iterates its characters. -/
def joinAnd (v : Val) : String :=
  match v with
  | Val.l names => String.intercalate " and " names
  | Val.s raw => String.intercalate " and " (raw.data.map (fun c => String.mk [c]))

/-- The field filter of `clean_entry` (cleaner.py lines 217-222): a fresh
record seeded with `ID` and `ENTRYTYPE`, then every input field whose name
is in the required-field list, in input order. -/
def filterFields (entry : Record) (needs : List String) (idVal tVal : Val) : Record :=
  entry.foldl
    (fun acc kv => if kv.1 ∈ needs then recSet acc kv.1 kv.2 else acc)
    [("ID", idVal), ("ENTRYTYPE", tVal)]

/-- The transform chain of `clean_entry` after the field filter (cleaner.py
lines 224-239): optional author normalization, optional title wrapping,
optional id regeneration (`e["ID"] = _make_id(e)`), and the unconditional
re-join `e["author"] = " and ".join(e["author"])`, which raises `KeyError`
when the filtered record has no author. -/
def cleanTail (e1 : Record) (opt : Options) : Except PyErr Record :=
  let e2 := if opt.jauthor then _treat_japanese_author e1 opt.revjauthor else e1
  match (if opt.savetitlecase then _wrap_title e2 else Except.ok e2) with
  | Except.error err => Except.error err
  | Except.ok e3 =>
    match (if opt.replaceid then (_make_id e3).map (fun v => recSet e3 "ID" v)
           else Except.ok e3) with
    | Except.error err => Except.error err
    | Except.ok e4 =>
      match recGet e4 "author" with
      | none => Except.error (PyErr.keyError "author")
      | some av => Except.ok (recSet e4 "author" (Val.s (joinAnd av)))

/-- `clean_entry` (cleaner.py lines 211-239), parameterized by the
required-field table `req`.  Modelled from the spec in one respect: the
table itself (`bibtex_schema.required`, whose module is not under src/) is
an immutable mapping from entry type to retained fields, taken here as an
arbitrary parameter returning `none` exactly for unregistered types. -/
def clean_entry (req : String → Option (List String)) (entry : Record) (opt : Options) :
    Except PyErr Record :=
  match recGet entry "ENTRYTYPE" with
  | none => Except.error (PyErr.keyError "ENTRYTYPE")
  | some (Val.l _) => Except.error PyErr.typeError
  | some (Val.s t) =>
    match req t with
    | none => Except.error (PyErr.unknownEntryType t)
    | some needs =>
      match recGet entry "ID" with
      | none => Except.error (PyErr.keyError "ID")
      | some idVal => cleanTail (filterFields entry needs idVal (Val.s t)) opt

/-- The per-entry loop of `clean_entries` (cleaner.py lines 253-256): the
first exception aborts the whole batch. -/
def mapCleanEntries (req : String → Option (List String)) (opt : Options) :
    List Record → Except PyErr (List Record)
  | [] => Except.ok []
  | r :: rs =>
    match clean_entry req r opt with
    | Except.error err => Except.error err
    | Except.ok c =>
      match mapCleanEntries req opt rs with
      | Except.error err => Except.error err
      | Except.ok cs => Except.ok (c :: cs)

/-- The id list `[entry["ID"] for entry in cleaned_entries]` fed to
`Counter` (cleaner.py line 259): `KeyError` on a record without `ID`,
`TypeError` on an unhashable (list) id. -/
def extractIds : List Record → Except PyErr (List String)
  | [] => Except.ok []
  | r :: rs =>
    match recGet r "ID" with
    | some (Val.s i) =>
      match extractIds rs with
      | Except.error err => Except.error err
      | Except.ok rest => Except.ok (i :: rest)
    | some (Val.l _) => Except.error PyErr.typeError
    | none => Except.error (PyErr.keyError "ID")

/-- Number of occurrences of `k` in `ids` (what `Counter` stores). -/
def countOcc (ids : List String) (k : String) : Nat :=
  (ids.filter (fun x => x = k)).length

/-- Keys of a `Counter` in insertion order, i.e. first-occurrence order of
the id list (what `counter.items()` iterates). -/
def firstOccsGo (seen : List String) : List String → List String
  | [] => []
  | x :: xs => if x ∈ seen then firstOccsGo seen xs else x :: firstOccsGo (x :: seen) xs

/-- The keys the deduplication loop actually processes: counter keys in
first-occurrence order whose count is at least 2 (cleaner.py lines
260-261). -/
def dupKeys (ids : List String) : List String :=
  (firstOccsGo [] ids).filter (fun k => decide (2 ≤ countOcc ids k))

/-- The inner renaming loop for one duplicated key (cleaner.py lines
262-266): every record whose CURRENT id equals `key` gets
`chr(ord("a") + cnt)` appended, `cnt` counting the matches seen so far. -/
def dedupPass (key : String) (cnt : Nat) : List Record → List Record
  | [] => []
  | r :: rs =>
    if recGet r "ID" = some (Val.s key) then
      recSet r "ID" (Val.s (key ++ (Char.ofNat (97 + cnt)).toString)) :: dedupPass key (cnt + 1) rs
    else r :: dedupPass key cnt rs

/-- The key deduplication step of `clean_entries` (cleaner.py lines
258-266): build the id counter, then run one renaming pass per duplicated
key, in counter order, each starting at suffix letter `a`. -/
def dedup (cleaned : List Record) : Except PyErr (List Record) :=
  match extractIds cleaned with
  | Except.error err => Except.error err
  | Except.ok ids =>
    Except.ok ((dupKeys ids).foldl (fun acc k => dedupPass k 0 acc) cleaned)

/-- `clean_entries` (cleaner.py lines 242-271): per-record cleaning in
order (all-or-nothing), then the unconditional deduplication pass. -/
def clean_entries (req : String → Option (List String)) (db : List Record) (opt : Options) :
    Except PyErr (List Record) :=
  match mapCleanEntries req opt db with
  | Except.error err => Except.error err
  | Except.ok cleaned => dedup cleaned

/-- Increment the per-key occurrence counter at `id`. -/
def bump (seen : String → Nat) (id : String) : String → Nat :=
  fun k => if k = id then seen k + 1 else seen k

/-- Mixed deduplication state: the records of `l` (with original ids `ids`)
after the renaming passes for exactly the keys in `K` have run; `seen`
counts, per key, the occurrences already passed on the way down. -/
def stK (K : List String) (seen : String → Nat) : List Record → List String → List Record
  | [], _ => []
  | _ :: _, [] => []
  | r :: rs, id :: idsR =>
    (if id ∈ K then recSet r "ID" (Val.s (id ++ (Char.ofNat (97 + seen id)).toString)) else r)
      :: stK K (bump seen id) rs idsR

/-- The deduplication outcome claim C8 describes, as a function of the
pre-deduplication ids: a record whose id occurs once is untouched, the
`m`-th record (in input order) sharing a duplicated id gets suffix letter
`chr(ord("a") + m)`. -/
def renameSpec (total : String → Nat) (seen : String → Nat) :
    List Record → List String → List Record
  | [], _ => []
  | _ :: _, [] => []
  | r :: rs, id :: idsR =>
    (if 2 ≤ total id then recSet r "ID" (Val.s (id ++ (Char.ofNat (97 + seen id)).toString)) else r)
      :: renameSpec total (bump seen id) rs idsR

/-- No id in the batch extends another id of the batch by exactly one
character.  Under this hypothesis the renaming passes of `dedup` cannot
interfere with each other. -/
def suffixFree (ids : List String) : Prop :=
  ∀ a ∈ ids, ∀ b ∈ ids, ¬(a.data.isPrefixOf b.data = true ∧ b.data.length = a.data.length + 1)

instance suffixFreeDecidable (ids : List String) : Decidable (suffixFree ids) := by
  unfold suffixFree
  infer_instance

/-- Modelled from the spec: a sample instance of the Schema Registry
(`bibtex_schema.required`; the module `bibtex_schema` is not under src/),
used for concrete evaluations — an immutable mapping from entry type to the
list of retained field names, undefined on every other type. -/
def sampleReq : String → Option (List String) := fun t =>
  if t = "article" then some ["author", "title", "journal", "year", "pages"]
  else if t = "misc" then some ["title"]
  else none

/-- All four cleaner flags off. -/
def opt0 : Options := ⟨false, false, false, false⟩

/-- All transforms on, Japanese order not reversed (the configuration of
the spec's Yamada scenario). -/
def optAll : Options := ⟨true, true, true, false⟩

/-- Sample record with candidate id `X`. -/
def recX : Record :=
  [("ID", Val.s "X"), ("ENTRYTYPE", Val.s "article"), ("author", Val.l ["Smith, John"])]

/-- Sample record whose pre-existing id `Xa` collides with the suffix the
deduplicator assigns to `X`. -/
def recXa : Record :=
  [("ID", Val.s "Xa"), ("ENTRYTYPE", Val.s "article"), ("author", Val.l ["Smith, John"])]

/-- The batch on which deduplication produces a duplicate id. -/
def c2batch : List Record := [recX, recXa, recX]

/-- Ids of a successful pipeline result ( `[]` on error). -/
def idsOfResult (r : Except PyErr (List Record)) : List (Option Val) :=
  match r with
  | Except.ok out => out.map (fun rec => recGet rec "ID")
  | Except.error _ => []

/-- Whether a pipeline result is the structured unknown-entry-type
failure. -/
def isUnknownETErr (r : Except PyErr (List Record)) : Bool :=
  match r with
  | Except.error (PyErr.unknownEntryType _) => true
  | _ => false

/-- A well-typed record with no author field (its schema keeps only
`title`). -/
def noAuthorRec : Record :=
  [("ID", Val.s "k1"), ("ENTRYTYPE", Val.s "misc"), ("title", Val.s "T")]

/-- A record whose entry type has no schema. -/
def weirdRec : Record :=
  [("ID", Val.s "k2"), ("ENTRYTYPE", Val.s "weirdtype"), ("author", Val.l ["A, B"])]

/-- A record that cleans successfully under `sampleReq`. -/
def okRec : Record :=
  [("ID", Val.s "k0"), ("ENTRYTYPE", Val.s "article"), ("author", Val.l ["Smith, John"])]

/-- Minimal record carrying only an id, for exercising `dedup` directly. -/
def rid (i : String) : Record := [("ID", Val.s i)]

/-- Deduplication input whose interfering passes break the claimed
suffix-letter assignment. -/
def c8batch : List Record := [rid "X", rid "X", rid "Xa", rid "Xa"]

/-- The spec's duplicate scenario: three records with candidate id
`Smith2019`. -/
def smithBatch : List Record := [rid "Smith2019", rid "Smith2019", rid "Smith2019"]

/-- First author `山田 太郎` (already in family-first order), year 2020:
the record deciding how `_make_id` picks a name part for CJK names. -/
def e6 : Record :=
  [("ID", Val.s "orig"), ("author", Val.l ["山田 太郎"]), ("year", Val.s "2020")]

/-- The name parts `splitname` returns for `山田 太郎`. -/
def p6 : NameParts := ⟨["山田"], [], ["太郎"], []⟩

/-- A record with no author field at all. -/
def eNoAuthor : Record := [("ID", Val.s "k")]

/-- A record with a Western first author, for the witness of the key
generator characterization. -/
def eSmith : Record :=
  [("ID", Val.s "orig"), ("author", Val.l ["Smith, John"]), ("year", Val.s "2019")]

/-- The name parts `splitname` returns for `Smith, John`. -/
def pSmith : NameParts := ⟨["John"], [], ["Smith"], []⟩

/-- An input record carrying a field (`note`) its schema drops. -/
def e9 : Record :=
  [("ID", Val.s "k"), ("ENTRYTYPE", Val.s "article"), ("author", Val.l ["Smith, John"]),
   ("note", Val.s "draft")]

/-- The cleaned form of `e9` under `sampleReq` with all flags off. -/
def e9out : Record :=
  [("ID", Val.s "k"), ("ENTRYTYPE", Val.s "article"), ("author", Val.s "Smith, John")]

/-- A record with an author but no year field. -/
def eNoYear : Record := [("ID", Val.s "k"), ("author", Val.l ["Smith, John"])]

/-- A record whose author value is falsy (an empty list). -/
def eFalsy : Record := [("ID", Val.s "k"), ("author", Val.l []), ("year", Val.s "2020")]

/-- A record whose first author has three commas, which strict-mode
`splitname` rejects with `InvalidName`. -/
def eBadName : Record :=
  [("ID", Val.s "k"), ("author", Val.l ["A, B, C, D"]), ("year", Val.s "2020")]

theorem recGet_recSet_self (r : Record) (k : String) (v : Val) :
    recGet (recSet r k v) k = some v := by
  induction r with
  | nil => simp [recSet, recGet]
  | cons p rest ih =>
    obtain ⟨k', v'⟩ := p
    by_cases h : k' = k <;> simp [recSet, recGet, h, ih]

theorem recGet_recSet_ne (r : Record) (k k2 : String) (v : Val) (h : k2 ≠ k) :
    recGet (recSet r k v) k2 = recGet r k2 := by
  induction r with
  | nil => simp [recSet, recGet, Ne.symm h]
  | cons p rest ih =>
    obtain ⟨k', v'⟩ := p
    by_cases hk : k' = k
    · subst hk
      simp [recSet, recGet, Ne.symm h]
    · by_cases hk2 : k' = k2
      · subst hk2
        simp [recSet, recGet, hk]
      · simp [recSet, recGet, hk, hk2, ih]

/-- C4 (amended): `_is_japanese` returns true iff a character whose Unicode
name resolves and matches appears before any character with an unresolvable
name; an unresolvable name ends the scan with `false` for the whole string
(never an error), rather than being skipped as an individual non-matching
character. -/
theorem c4_classifier_scan (s : String) :
    _is_japanese s =
      (s.data.takeWhile (fun c => (uname c).isSome)).any
        (fun c => hasJName ((uname c).getD "")) := by
  obtain ⟨L⟩ := s
  show isJapaneseAux L = _
  induction L with
  | nil => rfl
  | cons c cs ih =>
    cases h : uname c with
    | none => simp [isJapaneseAux, h, List.takeWhile_cons]
    | some n =>
      cases hn : hasJName n <;>
        simp [isJapaneseAux, h, hn, List.takeWhile_cons, ih]

/-- C4 counterexample: on a control character followed by a CJK ideograph
the classifier returns `false`, while the claimed per-character treatment
would return `true`. -/
theorem c4_counterexample :
    _is_japanese "\x00山" = false ∧ isCjkClaim "\x00山" = true := by
  decide

/-- C1 (amended): a name classified CJK that contains a comma is split at
the first comma into a family part (before the comma) and a given part
(after it), both stripped; with `reverseJapaneseAuthorOrder = false` the
result is `"family given"`, with `true` it is `"given family"` — the
opposite orientation of the claim. -/
theorem c1_treat_japanese_order (s : String)
    (h1 : _is_japanese s = true) (h2 : hasComma s = true) :
    treatName false s = pyStrip (beforeComma s) ++ " " ++ pyStrip (afterComma s)
    ∧ treatName true s = pyStrip (afterComma s) ++ " " ++ pyStrip (beforeComma s) := by
  unfold treatName
  rw [h1, h2]
  simp

theorem c1_treat_japanese_order_witness :
    treatName false "山田, 太郎"
        = pyStrip (beforeComma "山田, 太郎") ++ " " ++ pyStrip (afterComma "山田, 太郎")
    ∧ treatName true "山田, 太郎"
        = pyStrip (afterComma "山田, 太郎") ++ " " ++ pyStrip (beforeComma "山田, 太郎") :=
  c1_treat_japanese_order "山田, 太郎" (by decide) (by decide)

/-- C1 counterexample: with `reverseJapaneseAuthorOrder = false` the CJK
name `山田, 太郎` becomes `山田 太郎` (family first), not the claimed
given-first `太郎 山田`. -/
theorem c1_counterexample :
    treatName false "山田, 太郎" = "山田 太郎" ∧ ("山田 太郎" : String) ≠ "太郎 山田" := by
  decide

/-- C5 (amended): a name that is not classified CJK or has no comma passes
through unchanged, and the author list is transformed elementwise, so its
length and order are preserved.  (A CJK name with a comma and one empty
side does NOT pass through: it is still rebuilt from its trimmed parts.) -/
theorem c5_passthrough (rev : Bool) (s : String) (e : Record) (l : List String)
    (h : _is_japanese s = false ∨ hasComma s = false)
    (ha : recGet e "author" = some (Val.l l)) :
    treatName rev s = s
    ∧ recGet (_treat_japanese_author e rev) "author" = some (Val.l (l.map (treatName rev)))
    ∧ (l.map (treatName rev)).length = l.length := by
  refine ⟨?_, ?_, by simp⟩
  · unfold treatName
    rcases h with h | h <;> simp [h]
  · unfold _treat_japanese_author
    rw [ha]
    exact recGet_recSet_self e "author" _

theorem c5_passthrough_witness :
    treatName false "Smith, John" = "Smith, John"
    ∧ recGet (_treat_japanese_author [("author", Val.l ["Smith, John"])] false) "author"
        = some (Val.l (["Smith, John"].map (treatName false)))
    ∧ ((["Smith, John"] : List String).map (treatName false)).length
        = (["Smith, John"] : List String).length :=
  c5_passthrough false "Smith, John" [("author", Val.l ["Smith, John"])] ["Smith, John"]
    (Or.inl (by decide)) (by decide)

/-- C5 counterexample: the CJK name `山田,` has a comma with an empty given
side; the claim says it passes through unchanged, but the normalizer
rebuilds it as `山田 ` (trailing space). -/
theorem c5_counterexample :
    treatName false "山田," = "山田 " ∧ ("山田 " : String) ≠ "山田," := by
  decide

/-- C3 counterexample: the title `}{` (balanced count, mismatched order) is
wrapped to `{}{}` by one run and wrapped again to `{{}{}}` by a second run,
so the title transform is not idempotent on it. -/
theorem c3_counterexample :
    wrapTitleStr "\x7d\x7b" = some "\x7b\x7d\x7b\x7d"
    ∧ (wrapTitleStr "\x7d\x7b").bind wrapTitleStr = some "\x7b\x7b\x7d\x7b\x7d\x7d"
    ∧ some ("\x7b\x7b\x7d\x7b\x7d\x7d" : String) ≠ some ("\x7b\x7d\x7b\x7d" : String) := by
  decide

/-- C3 (amended): the title transform is idempotent on every title whose
delimiters already balance (in particular on every brace-free title):
wrapping such a title produces an already-protected title that the second
run leaves unchanged.  On a title with unbalanced delimiters (e.g. `}{`)
the second run wraps again, so unrestricted idempotence fails. -/
theorem c3_wrap_title_idempotent (t : String)
    (h : check_parentheses_matching t "\x7b" "\x7d" = true) :
    (wrapTitleStr t).bind wrapTitleStr = wrapTitleStr t := by
  obtain ⟨L⟩ := t
  cases L with
  | nil => rfl
  | cons c rest =>
    by_cases hc : c = '\x7b' ∧ rest.getLastD c = '\x7d'
        ∧ check_parentheses_matching (String.mk rest.dropLast) "\x7b" "\x7d" = true
    · have e1 : wrapTitleStr (String.mk (c :: rest)) = some (String.mk (c :: rest)) := by
        simp only [wrapTitleStr, if_pos hc]
      rw [e1]
      show wrapTitleStr (String.mk (c :: rest)) = some (String.mk (c :: rest))
      rw [e1]
    · have e1 : wrapTitleStr (String.mk (c :: rest))
          = some ("\x7b" ++ String.mk (c :: rest) ++ "\x7d") := by
        simp only [wrapTitleStr, if_neg hc]
      rw [e1]
      show wrapTitleStr ("\x7b" ++ String.mk (c :: rest) ++ "\x7d")
          = some ("\x7b" ++ String.mk (c :: rest) ++ "\x7d")
      have e2 : ("\x7b" ++ String.mk (c :: rest) ++ "\x7d")
          = String.mk ('\x7b' :: ((c :: rest) ++ ['\x7d'])) := rfl
      rw [e2]
      have hA : (c :: (rest ++ ['\x7d'])).getLastD '\x7b' = '\x7d' := by
        rw [← List.cons_append, List.getLastD_concat]
      have hB : check_parentheses_matching (String.mk (c :: (rest ++ ['\x7d'])).dropLast)
          "\x7b" "\x7d" = true := by
        rw [← List.cons_append, List.dropLast_concat]
        exact h
      simp only [wrapTitleStr]
      exact if_pos ⟨trivial, hA, hB⟩

theorem c3_wrap_title_idempotent_witness :
    (wrapTitleStr "The CNN Model").bind wrapTitleStr = wrapTitleStr "The CNN Model" :=
  c3_wrap_title_idempotent "The CNN Model" (by decide)

/-- C2 (evaluation at the failing input): on the batch with candidate ids
`X`, `Xa`, `X` the pipeline terminates normally but emits the id `Xa`
twice, violating the claimed output uniqueness. -/
theorem c2_dedup_collision_eval :
    idsOfResult (clean_entries sampleReq c2batch opt0)
        = [some (Val.s "Xa"), some (Val.s "Xa"), some (Val.s "Xb")]
    ∧ ¬ ([some (Val.s "Xa"), some (Val.s "Xa"), some (Val.s "Xb")] : List (Option Val)).Nodup := by
  exact ⟨by decide, by decide⟩

/-- C6 counterexample: for the CJK first author `山田 太郎` (family first
after normalization) the code keys on the structured FIRST component and
produces `山田2020`, while the claimed always-prefer-last policy would
produce `太郎2020`. -/
theorem c6_counterexample :
    _make_id e6 = Except.ok (Val.s "山田2020")
    ∧ make_id_spec e6 = Except.ok (Val.s "太郎2020")
    ∧ (Except.ok (Val.s "山田2020") : Except PyErr Val) ≠ Except.ok (Val.s "太郎2020") := by
  exact ⟨by decide, by decide, by decide⟩

/-- C7 counterexample: a batch containing an unknown-typed record aborts,
but when an earlier record fails first (here: a schema-valid record with no
author field) the surfaced failure is that earlier `KeyError`, not the
claimed structured `UnknownEntryType`. -/
theorem c7_counterexample :
    clean_entries sampleReq [noAuthorRec, weirdRec] opt0
        = Except.error (PyErr.keyError "author")
    ∧ isUnknownETErr (clean_entries sampleReq [noAuthorRec, weirdRec] opt0) = false
    ∧ sampleReq "weirdtype" = none := by
  exact ⟨by decide, by decide, by decide⟩

/-- C8 counterexample: on pre-deduplication ids `X, X, Xa, Xa` the pass for
key `X` renames the first record to `Xa`, after which the pass for key `Xa`
renames it AGAIN; the output ids are `Xaa, Xb, Xab, Xac`, not the claimed
per-original-id assignment `Xa, Xb, Xaa, Xab`. -/
theorem c8_counterexample :
    idsOfResult (dedup c8batch)
        = [some (Val.s "Xaa"), some (Val.s "Xb"), some (Val.s "Xab"), some (Val.s "Xac")]
    ∧ ([some (Val.s "Xaa"), some (Val.s "Xb"), some (Val.s "Xab"), some (Val.s "Xac")] : List (Option Val))
        ≠ [some (Val.s "Xa"), some (Val.s "Xb"), some (Val.s "Xaa"), some (Val.s "Xab")] := by
  exact ⟨by decide, by decide⟩

/-- C6 (amended): when author or year is missing (or the author value is
falsy) the key generator returns the existing id value; otherwise it splits
the first author and keys on a name part — the non-empty side when only one
of first/last is present, the existing id when both are empty, and, when
both are present, the structured FIRST component for a CJK-classified
author (the pipeline has already swapped such names to family-first order)
and the structured last component otherwise — stripped of spaces, periods
and braces and concatenated with the year.  There is no first-whitespace-
token fallback. -/
theorem c6_make_id_characterization (e : Record) (a : String) (rest : List String)
    (y : String) (parts : NameParts) (av yv : Val) :
    (recGet e "author" = none → _make_id e = idValOf e)
    ∧ (recGet e "author" = some av → recGet e "year" = none → _make_id e = idValOf e)
    ∧ (recGet e "author" = some av → valTruthy av = false → _make_id e = idValOf e)
    ∧ (recGet e "author" = some (Val.l (a :: rest)) →
       recGet e "year" = some yv →
       splitname a = none →
       _make_id e = Except.error PyErr.invalidName)
    ∧ (recGet e "author" = some (Val.l (a :: rest)) →
       recGet e "year" = some (Val.s y) →
       splitname a = some parts →
       _make_id e =
         if parts.first = [] ∧ parts.last = [] then idValOf e
         else Except.ok (Val.s (stripIdChars
           (if parts.first = [] ∨ parts.last = [] then
              (if parts.last ≠ [] then String.join parts.last else String.join parts.first)
            else if _is_japanese a then String.join parts.first
            else String.join parts.last) ++ y))) := by
  refine ⟨?_, ?_, ?_, ?_, ?_⟩
  · intro ha
    simp [_make_id, ha]
  · intro ha hy
    simp [_make_id, ha, hy]
  · intro ha hf
    cases hy : recGet e "year" with
    | none => simp [_make_id, ha, hy]
    | some yv2 => simp [_make_id, ha, hy, hf]
  · intro ha hy hsp
    simp [_make_id, ha, hy, hsp, valTruthy, firstElem]
  · intro ha hy hsp
    simp [_make_id, ha, hy, hsp, valTruthy, firstElem]

theorem c6_make_id_characterization_witness :
    _make_id eNoAuthor = idValOf eNoAuthor
    ∧ _make_id eNoYear = idValOf eNoYear
    ∧ _make_id eFalsy = idValOf eFalsy
    ∧ _make_id eBadName = Except.error PyErr.invalidName
    ∧ _make_id eSmith =
        (if pSmith.first = [] ∧ pSmith.last = [] then idValOf eSmith
         else Except.ok (Val.s (stripIdChars
           (if pSmith.first = [] ∨ pSmith.last = [] then
              (if pSmith.last ≠ [] then String.join pSmith.last else String.join pSmith.first)
            else if _is_japanese "Smith, John" then String.join pSmith.first
            else String.join pSmith.last) ++ "2019"))) :=
  ⟨(c6_make_id_characterization eNoAuthor "" [] "" ⟨[], [], [], []⟩
      (Val.s "") (Val.s "")).1 (by decide),
   (c6_make_id_characterization eNoYear "" [] "" ⟨[], [], [], []⟩
      (Val.l ["Smith, John"]) (Val.s "")).2.1 (by decide) (by decide),
   (c6_make_id_characterization eFalsy "" [] "" ⟨[], [], [], []⟩
      (Val.l []) (Val.s "")).2.2.1 (by decide) (by decide),
   (c6_make_id_characterization eBadName "A, B, C, D" [] "" ⟨[], [], [], []⟩
      (Val.s "") (Val.s "2020")).2.2.2.1 (by decide) (by decide) (by decide),
   (c6_make_id_characterization eSmith "Smith, John" [] "2019" pSmith
      (Val.s "") (Val.s "")).2.2.2.2 (by decide) (by decide) (by decide)⟩

theorem mapCleanEntries_ok_mem (req : String → Option (List String)) (opt : Options) :
    ∀ (db out : List Record), mapCleanEntries req opt db = Except.ok out →
      ∀ r ∈ db, ∃ x, clean_entry req r opt = Except.ok x := by
  intro db
  induction db with
  | nil =>
    intro out h r hr
    simp at hr
  | cons d ds ih =>
    intro out h r hr
    cases hc : clean_entry req d opt with
    | error err => simp [mapCleanEntries, hc] at h
    | ok c =>
      cases hm : mapCleanEntries req opt ds with
      | error err => simp [mapCleanEntries, hc, hm] at h
      | ok cs =>
        rcases List.mem_cons.mp hr with h1 | h2
        · exact ⟨c, h1 ▸ hc⟩
        · exact ih cs hm r h2

theorem clean_entry_unknown (req : String → Option (List String)) (opt : Options)
    (e : Record) (t : String)
    (ht : recGet e "ENTRYTYPE" = some (Val.s t)) (hr : req t = none) :
    clean_entry req e opt = Except.error (PyErr.unknownEntryType t) := by
  simp [clean_entry, ht, hr]

theorem mapCleanEntries_append_error (req : String → Option (List String)) (opt : Options)
    (pre post : List Record) (r : Record) (err : PyErr)
    (hpre : ∀ p ∈ pre, ∃ x, clean_entry req p opt = Except.ok x)
    (hr : clean_entry req r opt = Except.error err) :
    mapCleanEntries req opt (pre ++ r :: post) = Except.error err := by
  induction pre with
  | nil => simp [mapCleanEntries, hr]
  | cons p ps ih =>
    obtain ⟨x, hx⟩ := hpre p (List.mem_cons_self p ps)
    have htail := ih (fun q hq => hpre q (List.mem_cons_of_mem _ hq))
    simp [mapCleanEntries, hx, htail]

/-- C7 (amended): a batch containing a record whose entry type has no
schema always aborts with a failure and produces no output; the failure is
the structured `UnknownEntryType` whenever every record preceding the
unknown-typed one cleans successfully (an earlier record failing for
another reason aborts the run with that failure instead). -/
theorem c7_unknown_type_aborts (req : String → Option (List String)) (opt : Options)
    (db pre post : List Record) (r : Record) (t : String) :
    ((∃ r2 ∈ db, ∃ t2, recGet r2 "ENTRYTYPE" = some (Val.s t2) ∧ req t2 = none) →
       ∃ err, clean_entries req db opt = Except.error err)
    ∧ (db = pre ++ r :: post →
       (∀ p ∈ pre, ∃ x, clean_entry req p opt = Except.ok x) →
       recGet r "ENTRYTYPE" = some (Val.s t) → req t = none →
       clean_entries req db opt = Except.error (PyErr.unknownEntryType t)) := by
  constructor
  · rintro ⟨r2, hr2mem, t2, ht2, hreq⟩
    cases hm : mapCleanEntries req opt db with
    | error err => exact ⟨err, by simp [clean_entries, hm]⟩
    | ok out =>
      obtain ⟨x, hx⟩ := mapCleanEntries_ok_mem req opt db out hm r2 hr2mem
      rw [clean_entry_unknown req opt r2 t2 ht2 hreq] at hx
      exact absurd hx (by simp)
  · rintro rfl hpre ht hreq
    have hmap := mapCleanEntries_append_error req opt pre post r _ hpre
      (clean_entry_unknown req opt r t ht hreq)
    simp [clean_entries, hmap]

theorem c7_unknown_type_aborts_witness :
    (∃ err, clean_entries sampleReq [okRec, weirdRec] opt0 = Except.error err)
    ∧ clean_entries sampleReq [okRec, weirdRec] opt0
        = Except.error (PyErr.unknownEntryType "weirdtype") :=
  ⟨(c7_unknown_type_aborts sampleReq opt0 [okRec, weirdRec] [okRec] [] weirdRec "weirdtype").1
     ⟨weirdRec, by decide, "weirdtype", by decide, by decide⟩,
   (c7_unknown_type_aborts sampleReq opt0 [okRec, weirdRec] [okRec] [] weirdRec "weirdtype").2
     rfl
     (by
       intro p hp
       simp only [List.mem_singleton] at hp
       subst hp
       exact ⟨[("ID", Val.s "k0"), ("ENTRYTYPE", Val.s "article"),
               ("author", Val.s "Smith, John")], by decide⟩)
     (by decide) (by decide)⟩

theorem recGet_recSet_isSome (r : Record) (k k2 : String) (v : Val)
    (h : (recGet (recSet r k v) k2).isSome) : k2 = k ∨ (recGet r k2).isSome := by
  by_cases hk : k2 = k
  · exact Or.inl hk
  · rw [recGet_recSet_ne r k k2 v hk] at h
    exact Or.inr h

theorem mem_recGet_isSome (r : Record) (p : String × Val) (hp : p ∈ r) :
    (recGet r p.1).isSome := by
  induction r with
  | nil => simp at hp
  | cons q rest ih =>
    obtain ⟨k', v'⟩ := q
    rcases List.mem_cons.mp hp with h1 | h2
    · subst h1
      simp [recGet]
    · by_cases hk : k' = p.1 <;> simp [recGet, hk, ih h2]

theorem filterFoldInv (needs : List String) (Q : String → Prop) (l : List (String × Val)) :
    ∀ (acc : Record),
      (∀ k, (recGet acc k).isSome → Q k) →
      (∀ p ∈ l, p.1 ∈ needs → Q p.1) →
      ∀ k,
        (recGet (l.foldl
            (fun acc2 kv => if kv.1 ∈ needs then recSet acc2 kv.1 kv.2 else acc2) acc) k).isSome →
        Q k := by
  induction l with
  | nil =>
    intro acc hacc _ k hk
    exact hacc k hk
  | cons p ps ih =>
    intro acc hacc hl k hk
    simp only [List.foldl_cons] at hk
    by_cases hp : p.1 ∈ needs
    · rw [if_pos hp] at hk
      refine ih (recSet acc p.1 p.2) ?_ (fun q hq hqn => hl q (List.mem_cons_of_mem _ hq) hqn) k hk
      intro k2 hk2
      rcases recGet_recSet_isSome acc p.1 k2 p.2 hk2 with rfl | hs
      · exact hl p (List.mem_cons_self p ps) hp
      · exact hacc k2 hs
    · rw [if_neg hp] at hk
      exact ih acc hacc (fun q hq hqn => hl q (List.mem_cons_of_mem _ hq) hqn) k hk

theorem filterFields_keys (entry : Record) (needs : List String) (idVal tVal : Val) (k : String)
    (h : (recGet (filterFields entry needs idVal tVal) k).isSome) :
    k = "ID" ∨ k = "ENTRYTYPE" ∨ (k ∈ needs ∧ (recGet entry k).isSome) := by
  unfold filterFields at h
  refine filterFoldInv needs
    (fun k2 => k2 = "ID" ∨ k2 = "ENTRYTYPE" ∨ (k2 ∈ needs ∧ (recGet entry k2).isSome))
    entry [("ID", idVal), ("ENTRYTYPE", tVal)] ?_ ?_ k h
  · intro k2 hk2
    by_cases h1 : k2 = "ID"
    · exact Or.inl h1
    · by_cases h2 : k2 = "ENTRYTYPE"
      · exact Or.inr (Or.inl h2)
      · exfalso
        have hA : ("ID" : String) ≠ k2 := fun hh => h1 (Eq.symm hh)
        have hB : ("ENTRYTYPE" : String) ≠ k2 := fun hh => h2 (Eq.symm hh)
        simp [recGet, hA, hB] at hk2
  · intro p hp hpn
    exact Or.inr (Or.inr ⟨hpn, mem_recGet_isSome entry p hp⟩)

theorem treat_keys (e : Record) (rev : Bool) (k : String)
    (h : (recGet (_treat_japanese_author e rev) k).isSome) : (recGet e k).isSome := by
  unfold _treat_japanese_author at h
  cases ha : recGet e "author" with
  | none =>
    rw [ha] at h
    exact h
  | some v =>
    rw [ha] at h
    cases v with
    | l names =>
      rcases recGet_recSet_isSome e "author" k _ h with rfl | hs
      · simp [ha]
      · exact hs
    | s raw =>
      rcases recGet_recSet_isSome e "author" k _ h with rfl | hs
      · simp [ha]
      · exact hs

theorem wrap_keys_ne (e e2 : Record) (k : String) (hk : k ≠ "title")
    (hw : _wrap_title e = Except.ok e2) : recGet e2 k = recGet e k := by
  cases h : recGet e "title" with
  | none =>
    simp only [_wrap_title, h] at hw
    injection hw with h2
    rw [← h2]
  | some v =>
    cases v with
    | l _ =>
      simp only [_wrap_title, h] at hw
      exact absurd hw (by simp)
    | s t =>
      simp only [_wrap_title, h] at hw
      cases hwt : wrapTitleStr t with
      | none =>
        simp only [hwt] at hw
        exact absurd hw (by simp)
      | some t2 =>
        simp only [hwt] at hw
        injection hw with h2
        rw [← h2]
        exact recGet_recSet_ne e "title" k (Val.s t2) hk

theorem wrap_keys_isSome (e e2 : Record) (k : String)
    (hw : _wrap_title e = Except.ok e2) (h : (recGet e2 k).isSome) :
    (recGet e k).isSome := by
  by_cases hk : k = "title"
  · subst hk
    cases ht : recGet e "title" with
    | none =>
      simp only [_wrap_title, ht] at hw
      injection hw with h2
      rw [← h2] at h
      rw [ht] at h
      exact h
    | some v => simp [ht]
  · rw [wrap_keys_ne e e2 k hk hw] at h
    exact h

theorem cleanTail_keys (e1 : Record) (opt : Options) (out : Record)
    (h : cleanTail e1 opt = Except.ok out) :
    ∀ k, (recGet out k).isSome → k = "ID" ∨ (recGet e1 k).isSome := by
  simp only [cleanTail] at h
  cases hw : (if opt.savetitlecase
      then _wrap_title (if opt.jauthor then _treat_japanese_author e1 opt.revjauthor else e1)
      else Except.ok (if opt.jauthor then _treat_japanese_author e1 opt.revjauthor else e1)) with
  | error err =>
    simp only [hw] at h
    exact absurd h (by simp)
  | ok e3 =>
    simp only [hw] at h
    cases hm : (if opt.replaceid then (_make_id e3).map (fun v => recSet e3 "ID" v)
        else Except.ok e3) with
    | error err =>
      simp only [hm] at h
      exact absurd h (by simp)
    | ok e4 =>
      simp only [hm] at h
      cases hav : recGet e4 "author" with
      | none =>
        simp only [hav] at h
        exact absurd h (by simp)
      | some av =>
        simp only [hav] at h
        injection h with hout
        intro k hk
        rw [← hout] at hk
        have h4 : (recGet e4 k).isSome := by
          rcases recGet_recSet_isSome e4 "author" k _ hk with rfl | hs
          · simp [hav]
          · exact hs
        have h3 : k = "ID" ∨ (recGet e3 k).isSome := by
          by_cases hrep : opt.replaceid
          · rw [if_pos hrep] at hm
            cases hmk : _make_id e3 with
            | error err =>
              rw [hmk] at hm
              exact absurd hm (by simp [Except.map])
            | ok v =>
              rw [hmk] at hm
              simp only [Except.map] at hm
              injection hm with h4eq
              rw [← h4eq] at h4
              exact recGet_recSet_isSome e3 "ID" k v h4
          · rw [if_neg hrep] at hm
            injection hm with h4eq
            rw [← h4eq] at h4
            exact Or.inr h4
        rcases h3 with rfl | h3s
        · exact Or.inl rfl
        · right
          have h2 : (recGet (if opt.jauthor then _treat_japanese_author e1 opt.revjauthor else e1) k).isSome := by
            by_cases hst : opt.savetitlecase
            · rw [if_pos hst] at hw
              exact wrap_keys_isSome _ e3 k hw h3s
            · rw [if_neg hst] at hw
              injection hw with h3eq
              rw [← h3eq] at h3s
              exact h3s
          by_cases hj : opt.jauthor
          · rw [if_pos hj] at h2
            exact treat_keys e1 opt.revjauthor k h2
          · rw [if_neg hj] at h2
            exact h2

theorem cleanTail_ok_author (e1 : Record) (opt : Options) (out : Record)
    (h : cleanTail e1 opt = Except.ok out) : (recGet e1 "author").isSome := by
  simp only [cleanTail] at h
  cases hw : (if opt.savetitlecase
      then _wrap_title (if opt.jauthor then _treat_japanese_author e1 opt.revjauthor else e1)
      else Except.ok (if opt.jauthor then _treat_japanese_author e1 opt.revjauthor else e1)) with
  | error err =>
    simp only [hw] at h
    exact absurd h (by simp)
  | ok e3 =>
    simp only [hw] at h
    cases hm : (if opt.replaceid then (_make_id e3).map (fun v => recSet e3 "ID" v)
        else Except.ok e3) with
    | error err =>
      simp only [hm] at h
      exact absurd h (by simp)
    | ok e4 =>
      simp only [hm] at h
      cases hav : recGet e4 "author" with
      | none =>
        simp only [hav] at h
        exact absurd h (by simp)
      | some av =>
        have h4 : (recGet e4 "author").isSome := by simp [hav]
        have h3 : (recGet e3 "author").isSome := by
          by_cases hrep : opt.replaceid
          · rw [if_pos hrep] at hm
            cases hmk : _make_id e3 with
            | error err =>
              rw [hmk] at hm
              exact absurd hm (by simp [Except.map])
            | ok v =>
              rw [hmk] at hm
              simp only [Except.map] at hm
              injection hm with h4eq
              rw [← h4eq] at h4
              rw [recGet_recSet_ne e3 "ID" "author" v (by decide)] at h4
              exact h4
          · rw [if_neg hrep] at hm
            injection hm with h4eq
            rw [← h4eq] at h4
            exact h4
        have h2 : (recGet (if opt.jauthor then _treat_japanese_author e1 opt.revjauthor else e1)
            "author").isSome := by
          by_cases hst : opt.savetitlecase
          · rw [if_pos hst] at hw
            exact wrap_keys_isSome _ e3 "author" hw h3
          · rw [if_neg hst] at hw
            injection hw with h3eq
            rw [← h3eq] at h3
            exact h3
        by_cases hj : opt.jauthor
        · rw [if_pos hj] at h2
          exact treat_keys e1 opt.revjauthor "author" h2
        · rw [if_neg hj] at h2
          exact h2

/-- C9: a successfully cleaned record contains only its `ID`, its
`ENTRYTYPE`, and fields that are BOTH in the registry's field set for its
entry type AND present in the source record; cleaning never adds any other
field. -/
theorem c9_fields_subset (req : String → Option (List String)) (entry : Record)
    (opt : Options) (out : Record)
    (h : clean_entry req entry opt = Except.ok out) :
    ∃ t needs, recGet entry "ENTRYTYPE" = some (Val.s t) ∧ req t = some needs ∧
      ∀ k, (recGet out k).isSome →
        k = "ID" ∨ k = "ENTRYTYPE" ∨ (k ∈ needs ∧ (recGet entry k).isSome) := by
  cases ht : recGet entry "ENTRYTYPE" with
  | none =>
    simp only [clean_entry, ht] at h
    exact absurd h (by simp)
  | some tv =>
    cases tv with
    | l _ =>
      simp only [clean_entry, ht] at h
      exact absurd h (by simp)
    | s t =>
      cases hreq : req t with
      | none =>
        simp only [clean_entry, ht, hreq] at h
        exact absurd h (by simp)
      | some needs =>
        cases hid : recGet entry "ID" with
        | none =>
          simp only [clean_entry, ht, hreq, hid] at h
          exact absurd h (by simp)
        | some idVal =>
          simp only [clean_entry, ht, hreq, hid] at h
          refine ⟨t, needs, rfl, hreq, ?_⟩
          intro k hk
          rcases cleanTail_keys _ opt out h k hk with rfl | h1
          · exact Or.inl rfl
          · rcases filterFields_keys entry needs idVal (Val.s t) k h1 with h2 | h2 | h2
            · exact Or.inl h2
            · exact Or.inr (Or.inl h2)
            · exact Or.inr (Or.inr h2)

theorem c9_fields_subset_witness :
    ∃ t needs, recGet e9 "ENTRYTYPE" = some (Val.s t) ∧ sampleReq t = some needs ∧
      ∀ k, (recGet e9out k).isSome →
        k = "ID" ∨ k = "ENTRYTYPE" ∨ (k ∈ needs ∧ (recGet e9 k).isSome) :=
  c9_fields_subset sampleReq e9 opt0 e9out (by decide)

/-- C10: whenever the filtered form of a record has no author — the source
lacks the field, or the schema for its type omits it — `clean_entry` fails
with some error (under every configuration), because the final unconditional
author re-join reads a missing key; no cleaned record is returned. -/
theorem c10_missing_author_fails (req : String → Option (List String)) (entry : Record)
    (opt : Options)
    (h : recGet entry "author" = none
       ∨ (∃ t needs, recGet entry "ENTRYTYPE" = some (Val.s t) ∧ req t = some needs
            ∧ "author" ∉ needs)) :
    ∃ err, clean_entry req entry opt = Except.error err := by
  cases hres : clean_entry req entry opt with
  | error err => exact ⟨err, rfl⟩
  | ok out =>
    exfalso
    cases ht : recGet entry "ENTRYTYPE" with
    | none =>
      simp only [clean_entry, ht] at hres
      exact absurd hres (by simp)
    | some tv =>
      cases tv with
      | l _ =>
        simp only [clean_entry, ht] at hres
        exact absurd hres (by simp)
      | s t =>
        cases hreq : req t with
        | none =>
          simp only [clean_entry, ht, hreq] at hres
          exact absurd hres (by simp)
        | some needs =>
          cases hid : recGet entry "ID" with
          | none =>
            simp only [clean_entry, ht, hreq, hid] at hres
            exact absurd hres (by simp)
          | some idVal =>
            simp only [clean_entry, ht, hreq, hid] at hres
            have hauth := cleanTail_ok_author _ opt out hres
            rcases filterFields_keys entry needs idVal (Val.s t) "author" hauth
              with h2 | h2 | h2
            · exact absurd h2 (by decide)
            · exact absurd h2 (by decide)
            · rcases h with hnone | ⟨t2, needs2, ht2, hreq2, hnotin⟩
              · rw [hnone] at h2
                exact absurd h2.2 (by simp)
              · rw [ht] at ht2
                injection ht2 with hv
                injection hv with hteq
                subst hteq
                rw [hreq] at hreq2
                injection hreq2 with hneq
                subst hneq
                exact hnotin h2.1

theorem c10_missing_author_fails_witness :
    ∃ err, clean_entry sampleReq noAuthorRec opt0 = Except.error err :=
  c10_missing_author_fails sampleReq noAuthorRec opt0
    (Or.inr ⟨"misc", ["title"], by decide, by decide, by decide⟩)

theorem extractIds_cons (r : Record) (rs : List Record) (ids : List String)
    (h : extractIds (r :: rs) = Except.ok ids) :
    ∃ i rest2, ids = i :: rest2 ∧ recGet r "ID" = some (Val.s i)
      ∧ extractIds rs = Except.ok rest2 := by
  cases hg : recGet r "ID" with
  | none => simp [extractIds, hg] at h
  | some v =>
    cases v with
    | l _ => simp [extractIds, hg] at h
    | s i =>
      cases hrest : extractIds rs with
      | error err => simp [extractIds, hg, hrest] at h
      | ok rest2 =>
        simp only [extractIds, hg, hrest] at h
        injection h with hids
        exact ⟨i, rest2, hids.symm, rfl, rfl⟩

theorem append_char_data (s : String) (c : Char) : (s ++ c.toString).data = s.data ++ [c] := by
  obtain ⟨L⟩ := s
  rfl

theorem suffixFree_push {ids : List String} (hsf : suffixFree ids) {a b : String}
    (ha : a ∈ ids) (hb : b ∈ ids) (c : Char) : b ≠ a ++ c.toString := by
  intro he
  apply hsf a ha b hb
  constructor
  · rw [he, append_char_data]
    exact List.isPrefixOf_iff_prefix.mpr ⟨[c], rfl⟩
  · rw [he, append_char_data]
    simp

theorem stK_nil (l : List Record) (ids : List String) (seen : String → Nat)
    (h : extractIds l = Except.ok ids) : stK [] seen l ids = l := by
  induction l generalizing ids seen with
  | nil =>
    simp only [extractIds] at h
    injection h with h2
    rw [← h2]
    rfl
  | cons r rs ih =>
    obtain ⟨i, rest2, rfl, hg, hrest⟩ := extractIds_cons r rs ids h
    simp [stK, ih rest2 (bump seen i) hrest]

theorem dedupPass_stK (idsAll : List String) (hsf : suffixFree idsAll) (k : String)
    (hk : k ∈ idsAll) (K : List String) (hkK : k ∉ K) :
    ∀ (l : List Record) (ids : List String), extractIds l = Except.ok ids →
      (∀ x ∈ ids, x ∈ idsAll) → ∀ (seen : String → Nat),
      dedupPass k (seen k) (stK K seen l ids) = stK (k :: K) seen l ids := by
  intro l
  induction l with
  | nil =>
    intro ids h hsub seen
    simp only [extractIds] at h
    injection h with h2
    rw [← h2]
    rfl
  | cons r rs ih =>
    intro ids h hsub seen
    obtain ⟨i, rest2, rfl, hg, hrest⟩ := extractIds_cons r rs ids h
    have hisub : i ∈ idsAll := hsub i (List.mem_cons_self i rest2)
    have hrsub : ∀ x ∈ rest2, x ∈ idsAll := fun x hx => hsub x (List.mem_cons_of_mem _ hx)
    simp only [stK]
    by_cases hiK : i ∈ K
    · have hik : i ≠ k := fun hh => hkK (hh ▸ hiK)
      rw [if_pos hiK]
      have hne : ¬ (recGet (recSet r "ID"
          (Val.s (i ++ (Char.ofNat (97 + seen i)).toString))) "ID" = some (Val.s k)) := by
        rw [recGet_recSet_self]
        intro hh
        injection hh with hv
        injection hv with hs
        exact suffixFree_push hsf hisub hk (Char.ofNat (97 + seen i)) hs.symm
      simp only [dedupPass]
      rw [if_neg hne]
      have hbk : (bump seen i) k = seen k := by simp [bump, Ne.symm hik]
      have htail := ih rest2 hrest hrsub (bump seen i)
      rw [hbk] at htail
      rw [htail]
      rw [if_pos (List.mem_cons_of_mem k hiK)]
    · rw [if_neg hiK]
      by_cases hik : i = k
      · subst hik
        simp only [dedupPass]
        rw [if_pos hg]
        have htail := ih rest2 hrest hrsub (bump seen i)
        have hbk : (bump seen i) i = seen i + 1 := by simp [bump]
        rw [hbk] at htail
        rw [htail]
        rw [if_pos (List.mem_cons_self i K)]
      · simp only [dedupPass]
        have hne : ¬ (recGet r "ID" = some (Val.s k)) := by
          rw [hg]
          intro hh
          injection hh with hv
          injection hv with hs
          exact hik hs
        rw [if_neg hne]
        have hbk : (bump seen i) k = seen k := by simp [bump, Ne.symm hik]
        have htail := ih rest2 hrest hrsub (bump seen i)
        rw [hbk] at htail
        rw [htail]
        have hnotin : i ∉ k :: K := by
          intro hh
          rcases List.mem_cons.mp hh with h1 | h1
          · exact hik h1
          · exact hiK h1
        rw [if_neg hnotin]

theorem foldl_dedupPass (idsAll : List String) (hsf : suffixFree idsAll)
    (l : List Record) (ids : List String) (hx : extractIds l = Except.ok ids)
    (hsub : ∀ x ∈ ids, x ∈ idsAll) :
    ∀ (ks K : List String), (∀ x ∈ ks, x ∈ idsAll) →
      ks.Nodup → (∀ x ∈ ks, x ∉ K) →
      ks.foldl (fun acc k => dedupPass k 0 acc) (stK K (fun _ => 0) l ids)
        = stK (ks.reverse ++ K) (fun _ => 0) l ids := by
  intro ks
  induction ks with
  | nil =>
    intro K _ _ _
    simp
  | cons k ktail ih =>
    intro K hks hnd hdisj
    simp only [List.foldl_cons]
    have hpass := dedupPass_stK idsAll hsf k (hks k (List.mem_cons_self k ktail)) K
      (hdisj k (List.mem_cons_self k ktail)) l ids hx hsub (fun _ => 0)
    simp only [] at hpass
    rw [hpass]
    have hnd2 := List.nodup_cons.mp hnd
    have hrec := ih (k :: K) (fun x hx2 => hks x (List.mem_cons_of_mem _ hx2)) hnd2.2
      (fun x hx2 => by
        intro hh
        rcases List.mem_cons.mp hh with h1 | h1
        · exact hnd2.1 (h1 ▸ hx2)
        · exact hdisj x (List.mem_cons_of_mem _ hx2) h1)
    rw [hrec]
    congr 1
    simp

theorem mem_firstOccsGo (x : String) :
    ∀ (l seen : List String), x ∈ firstOccsGo seen l ↔ (x ∈ l ∧ x ∉ seen) := by
  intro l
  induction l with
  | nil => intro seen; simp [firstOccsGo]
  | cons y ys ih =>
    intro seen
    simp only [firstOccsGo]
    by_cases hy : y ∈ seen
    · rw [if_pos hy, ih seen]
      constructor
      · rintro ⟨h1, h2⟩
        exact ⟨List.mem_cons_of_mem _ h1, h2⟩
      · rintro ⟨h1, h2⟩
        rcases List.mem_cons.mp h1 with h3 | h3
        · exact absurd (h3 ▸ hy) h2
        · exact ⟨h3, h2⟩
    · rw [if_neg hy]
      simp only [List.mem_cons, ih (y :: seen)]
      constructor
      · rintro (h1 | ⟨h1, h2⟩)
        · exact ⟨Or.inl h1, h1 ▸ hy⟩
        · exact ⟨Or.inr h1, fun hh => h2 (Or.inr hh)⟩
      · rintro ⟨h1 | h1, h2⟩
        · exact Or.inl h1
        · by_cases hxy : x = y
          · exact Or.inl hxy
          · exact Or.inr ⟨h1, fun hh => by
              rcases hh with h3 | h3
              · exact hxy h3
              · exact h2 h3⟩

theorem nodup_firstOccsGo : ∀ (l seen : List String), (firstOccsGo seen l).Nodup := by
  intro l
  induction l with
  | nil => intro seen; simp [firstOccsGo]
  | cons y ys ih =>
    intro seen
    simp only [firstOccsGo]
    by_cases hy : y ∈ seen
    · rw [if_pos hy]
      exact ih seen
    · rw [if_neg hy]
      refine List.nodup_cons.mpr ⟨?_, ih (y :: seen)⟩
      intro hmem
      exact ((mem_firstOccsGo y ys (y :: seen)).mp hmem).2 (List.mem_cons_self y seen)

theorem mem_dupKeys (ids : List String) (x : String) :
    x ∈ dupKeys ids ↔ (x ∈ ids ∧ 2 ≤ countOcc ids x) := by
  unfold dupKeys
  rw [List.mem_filter, mem_firstOccsGo]
  constructor
  · rintro ⟨⟨h1, _⟩, h2⟩
    exact ⟨h1, by simpa using h2⟩
  · rintro ⟨h1, h2⟩
    exact ⟨⟨h1, by simp⟩, by simpa using h2⟩

theorem nodup_dupKeys (ids : List String) : (dupKeys ids).Nodup :=
  (nodup_firstOccsGo ids []).filter _

theorem stK_renameSpec (idsAll K : List String)
    (hmemiff : ∀ x, x ∈ idsAll → (x ∈ K ↔ 2 ≤ countOcc idsAll x)) :
    ∀ (l : List Record) (ids : List String) (seen : String → Nat),
      (∀ x ∈ ids, x ∈ idsAll) →
      stK K seen l ids = renameSpec (fun k2 => countOcc idsAll k2) seen l ids := by
  intro l
  induction l with
  | nil =>
    intro ids seen _
    cases ids <;> rfl
  | cons r rs ih =>
    intro ids seen hsub
    cases ids with
    | nil => rfl
    | cons i rest =>
      simp only [stK, renameSpec]
      have hi : i ∈ idsAll := hsub i (List.mem_cons_self i rest)
      congr 1
      · by_cases hiK : i ∈ K
        · rw [if_pos hiK, if_pos ((hmemiff i hi).mp hiK)]
        · rw [if_neg hiK, if_neg (fun hh => hiK ((hmemiff i hi).mpr hh))]
      · exact ih rest (bump seen i) (fun x hx => hsub x (List.mem_cons_of_mem _ hx))

/-- C8 (amended): the deduplication step runs on every batch regardless of
flags (it is applied to whatever per-record cleaning produced, under every
configuration), and — PROVIDED no pre-deduplication id extends another id
of the batch by one character, so that renaming passes cannot interfere —
each record whose id occurs once is untouched and the `m`-th record (in
original input order) among those sharing a duplicated id gets
`chr(ord("a") + m)` appended: the first becomes `id + "a"`, the second
`id + "b"`, and so on.  Without that proviso a record renamed by one pass
can be captured and renamed again by a later pass. -/
theorem c8_dedup_suffix_free (l : List Record) (ids : List String)
    (hx : extractIds l = Except.ok ids) (hsf : suffixFree ids)
    (req : String → Option (List String)) (opt : Options) (db cleaned : List Record)
    (hc : mapCleanEntries req opt db = Except.ok cleaned) :
    dedup l = Except.ok (renameSpec (fun k => countOcc ids k) (fun _ => 0) l ids)
    ∧ clean_entries req db opt = dedup cleaned := by
  constructor
  · simp only [dedup, hx]
    have hsub : ∀ x ∈ ids, x ∈ ids := fun x hx2 => hx2
    have hbase : stK [] (fun _ => 0) l ids = l := stK_nil l ids _ hx
    have hf := foldl_dedupPass ids hsf l ids hx hsub (dupKeys ids) []
      (fun x hx2 => ((mem_dupKeys ids x).mp hx2).1)
      (nodup_dupKeys ids)
      (fun x _ => List.not_mem_nil x)
    have hmemiff : ∀ x, x ∈ ids → ((x ∈ (dupKeys ids).reverse ++ []) ↔ 2 ≤ countOcc ids x) := by
      intro x hxids
      rw [List.append_nil, List.mem_reverse, mem_dupKeys]
      constructor
      · rintro ⟨_, h2⟩
        exact h2
      · intro h2
        exact ⟨hxids, h2⟩
    refine congrArg Except.ok ?_
    calc (dupKeys ids).foldl (fun acc k => dedupPass k 0 acc) l
        = (dupKeys ids).foldl (fun acc k => dedupPass k 0 acc) (stK [] (fun _ => 0) l ids) := by
          rw [hbase]
      _ = stK ((dupKeys ids).reverse ++ []) (fun _ => 0) l ids := hf
      _ = renameSpec (fun k => countOcc ids k) (fun _ => 0) l ids :=
          stK_renameSpec ids ((dupKeys ids).reverse ++ []) hmemiff l ids (fun _ => 0) hsub
  · simp only [clean_entries, hc]

theorem c8_dedup_suffix_free_witness :
    dedup smithBatch
        = Except.ok (renameSpec
            (fun k => countOcc ["Smith2019", "Smith2019", "Smith2019"] k) (fun _ => 0)
            smithBatch ["Smith2019", "Smith2019", "Smith2019"])
    ∧ clean_entries sampleReq [okRec] opt0
        = dedup [[("ID", Val.s "k0"), ("ENTRYTYPE", Val.s "article"),
                  ("author", Val.s "Smith, John")]] :=
  c8_dedup_suffix_free smithBatch ["Smith2019", "Smith2019", "Smith2019"]
    (by decide) (by decide) sampleReq opt0 [okRec]
    [[("ID", Val.s "k0"), ("ENTRYTYPE", Val.s "article"), ("author", Val.s "Smith, John")]]
    (by decide)
